import Mathlib

set_option maxHeartbeats 1000000

/-!
Shallow embedding of the Reversi rules engine found in src/game.rs, together
with theorems settling the specification claims about it.

Machine integers of the source (i8 coordinates and counters, usize indices)
are modelled as Int and Nat; the i8-to-usize cast used for raw indexing is
made explicit. A panic of the source (out-of-bounds Vec index in Place::place)
is modelled by an Option result.
-/

/-- Associates a piece with a player (source: enum Color). -/
inductive Color where
  | Black : Color
  | White : Color
deriving DecidableEq

/-- Flipping a piece results in a piece of opposite color (source: Color::flip). -/
def Color.flip : Color → Color
  | Color.Black => Color.White
  | Color.White => Color.Black

/-- Denotes a position indexed by column and row on the board (source: type Coord = (i8, i8)). -/
abbrev Coord := Int × Int

/-- Enumerates all possible flip directions on the board (source: const DIRECTIONS).
The first element of the product is the delta in column index, the second the delta in row index,
in source order N, NE, E, SE, S, SW, W, NW. -/
def DIRECTIONS : List Coord :=
  [(0, 1), (1, 1), (1, 0), (1, -1), (0, -1), (-1, -1), (-1, 0), (-1, 1)]

/-- Lists the reasons why a move is illegal (source: enum IllegalMove). -/
inductive IllegalMove where
  | Occupied : Color → IllegalMove
  | Ineffective : IllegalMove
deriving DecidableEq

/-- Holds the description of a legal move on the board (source: struct LegalMove).
The flips field is the source's [i8; 8] of per-direction flip counts, modelled as a list of Int. -/
structure LegalMove where
  color : Color
  flips : List Int
  position : Coord
deriving DecidableEq

/-- The 8x8 cell matrix (source type [[Option<Color>; 8]; 8]), modelled as a list of 8 columns
of 8 cells each. -/
abbrev Cells := List (List (Option Color))

/-- Rust's i8-as-usize cast (sign extension, then reinterpretation as a 64-bit unsigned value),
which the source performs before every raw index. -/
def as_usize (x : Int) : Nat := (x % (2 ^ 64 : Int)).toNat

/-- Reads cells[x as usize][y as usize]. An out-of-range read defaults to none; the source
either guards the range before indexing or never reaches the out-of-range case. -/
def getCell (cells : Cells) (x y : Int) : Option Color :=
  ((cells[as_usize x]?).bind (fun col => col[as_usize y]?)).getD none

/-- Writes cells[x as usize][y as usize] = v. An out-of-range write is dropped; the source
never performs one. -/
def setCell (cells : Cells) (x y : Int) (v : Option Color) : Cells :=
  cells.set (as_usize x) (((cells[as_usize x]?).getD []).set (as_usize y) v)

/-- One cell update of the source's flip loop: Some(cells[...].unwrap().flip()).
The none case is the source's unwrap panic path, never reached for tester-produced moves. -/
def flipCell : Option Color → Option Color
  | some c => some c.flip
  | none => none

/-- An 8x8 matrix of cells holding disks (source: struct Board). -/
structure Board where
  cells : Cells
deriving DecidableEq

/-- Creates a board for the starting constellation (source: Board::new). -/
def Board.new : Board :=
  let cells : Cells := List.replicate 8 (List.replicate 8 none)
  let cells := setCell cells 3 3 (some Color.Black)
  let cells := setCell cells 3 4 (some Color.White)
  let cells := setCell cells 4 3 (some Color.White)
  let cells := setCell cells 4 4 (some Color.Black)
  { cells := cells }

/-- Source: fn flip_direction(cells, position, direction, n). The i8 counter n, always
nonnegative when reached from apply, is modelled as the Nat recursion argument. -/
def flip_direction : Cells → Coord → Coord → Nat → Cells
  | cells, _, _, 0 => cells
  | cells, position, direction, n + 1 =>
    let next : Coord := (position.1 + direction.1, position.2 + direction.2)
    flip_direction (setCell cells next.1 next.2 (flipCell (getCell cells next.1 next.2)))
      next direction n

/-- Applying a legal move returns a changed board (source: LegalMove::apply). The source's
indexed loop over DIRECTIONS with flips[i] is the fold over their zip. -/
def LegalMove.apply (m : LegalMove) (board : Board) : Board :=
  let x := m.position.1
  let y := m.position.2
  let cells := (DIRECTIONS.zip m.flips).foldl
    (fun cs dn => flip_direction cs (x, y) dn.1 dn.2.toNat) board.cells
  { cells := setCell cells x y (some m.color) }

/-- Finds the number of opponent pieces sandwiched in a straight line between our color
(source: fn test_direction). The extra Nat argument bounds the recursion; from any in-range
start along a unit direction the source recursion terminates within 8 steps, so every call
site passes 8. -/
def test_direction (cells : Cells) (color : Color) : Coord → Coord → Int → Nat → Int
  | _, _, _, 0 => 0
  | position, direction, n, fuel + 1 =>
    let nx := position.1 + direction.1
    let ny := position.2 + direction.2
    if nx = 8 ∨ nx = -1 ∨ ny = 8 ∨ ny = -1 then 0
    else
      match getCell cells nx ny with
      | none => 0
      | some found =>
        if found = color then n
        else test_direction cells color (nx, ny) direction (n + 1) fuel

/-- Tests whether there are valid flips on the position and returns them, otherwise an error
with the reason (source: fn test_position). The source accumulates sum and the flips array in
one loop over DIRECTIONS; here flips is the per-direction list and sum its list sum. -/
def test_position (cells : Cells) (color : Color) (position : Coord) :
    Except IllegalMove LegalMove :=
  match getCell cells position.1 position.2 with
  | some c => Except.error (IllegalMove.Occupied c)
  | none =>
    let flips := DIRECTIONS.map (fun d => test_direction cells color position d 0 8)
    if flips.sum = 0 then Except.error IllegalMove.Ineffective
    else Except.ok { color := color, flips := flips, position := position }

/-- Tests all the moves a given player can take on the board (source: Board::test). The
source iterates (0..7) for both indices, i.e. columns and rows 0 through 6 only. -/
def Board.test (b : Board) (color : Color) : List (List (Except IllegalMove LegalMove)) :=
  (List.range 7).map (fun i =>
    (List.range 7).map (fun j => test_position b.cells color (Int.ofNat i, Int.ofNat j)))

/-- Source: Result::is_ok applied to a legality entry. -/
def is_ok : Except IllegalMove LegalMove → Bool
  | Except.ok _ => true
  | Except.error _ => false

deriving instance DecidableEq for Except

/-- The game state that has a placing move as continuation (source: struct Place). -/
structure Place where
  player : Color
  retry_reason : Option IllegalMove
  moves : List (List (Except IllegalMove LegalMove))
  board : Board
deriving DecidableEq

/-- The game state that has a skipping move as continuation (source: struct Skip). -/
structure Skip where
  player : Color
  board : Board
deriving DecidableEq

/-- Enumerates possible states of the game (source: enum Game). -/
inductive Game where
  | Place : Place → Game
  | Skip : Skip → Game
  | End : Game
deriving DecidableEq

/-- The raw double Vec index self.moves[x as usize][y as usize] performed by Place::place;
none is the out-of-bounds case, on which the source panics. -/
def gridGet (moves : List (List (Except IllegalMove LegalMove))) (x y : Int) :
    Option (Except IllegalMove LegalMove) :=
  (moves[as_usize x]?).bind (fun col => col[as_usize y]?)

/-- Place a piece with self's color on the selected coordinate of self's board
(source: Place::place). A none result is the source's index-out-of-bounds panic on the raw
grid lookup; every in-bounds lookup produces some game state, as in the source. -/
def Place.place (s : Place) (selected_cell : Coord) : Option Game :=
  match gridGet s.moves selected_cell.1 selected_cell.2 with
  | none => none
  | some (Except.error illegal_move) =>
    some (Game.Place { s with retry_reason := some illegal_move })
  | some (Except.ok legal_move) =>
    let next_board := legal_move.apply s.board
    let next_player := s.player.flip
    let next_moves := next_board.test next_player
    let has_valid_move := next_moves.any (fun col => col.any is_ok)
    if has_valid_move then
      some (Game.Place
        { player := next_player, retry_reason := none, moves := next_moves, board := next_board })
    else
      some (Game.Skip { player := next_player, board := next_board })

/-- Skip the next move; returns the new game state, the board remains the same
(source: Skip::skip). -/
def Skip.skip (s : Skip) : Game :=
  let next_player := s.player.flip
  let next_moves := s.board.test next_player
  let has_valid_move := next_moves.any (fun col => col.any is_ok)
  if has_valid_move then
    Game.Place { player := next_player, retry_reason := none, moves := next_moves, board := s.board }
  else
    Game.End

/-- Initializes a game to the starting state (source: fn new_game). -/
def new_game : Game :=
  let board := Board.new
  let player := Color.Black
  let moves := board.test player
  Game.Place { player := player, retry_reason := none, moves := moves, board := board }

/-- The Place payload of new_game, used to state concrete scenarios. -/
def initialPlace : Place :=
  { player := Color.Black, retry_reason := none,
    moves := Board.new.test Color.Black, board := Board.new }

/-- Total number of occupied cells of a board. -/
def countOccupied (cells : Cells) : Nat :=
  (cells.map (fun col => col.countP (fun o => o.isSome))).sum

/-- The legal move the tester produces for Black at column 3, row 5 on the opening board:
one capture toward decreasing row (direction index 4 of DIRECTIONS). -/
def lm35 : LegalMove :=
  { color := Color.Black, flips := [0, 0, 0, 0, 1, 0, 0, 0], position := (3, 5) }

/-- C1: the source's legality grid does not cover the 8x8 board. Board::test iterates
(0..7) for both indices, so for every board and color the grid has only 7 columns of 7
rows: the claimed 8x8 coverage fails, and positions with a coordinate equal to 7 have no
entry at all. -/
theorem C1_grid_is_7x7 (b : Board) (c : Color) :
    (b.test c).length = 7
    ∧ (b.test c).map List.length = List.replicate 7 7
    ∧ gridGet (b.test c) 7 0 = none
    ∧ gridGet (b.test c) 0 7 = none :=
  ⟨rfl, rfl, rfl, rfl⟩

/-- C7: new_game returns a Place state for Black with no retry reason, the legality grid
computed by test for Black, and the canonical opening board: (3,3) and (4,4) Black, (3,4)
and (4,3) White, 4 occupied cells and 60 empty cells in total. -/
theorem C7_new_game_initial :
    new_game = Game.Place initialPlace
    ∧ initialPlace.player = Color.Black
    ∧ initialPlace.retry_reason = none
    ∧ initialPlace.moves = Board.new.test Color.Black
    ∧ initialPlace.board = Board.new
    ∧ getCell Board.new.cells 3 3 = some Color.Black
    ∧ getCell Board.new.cells 3 4 = some Color.White
    ∧ getCell Board.new.cells 4 3 = some Color.White
    ∧ getCell Board.new.cells 4 4 = some Color.Black
    ∧ countOccupied Board.new.cells = 4
    ∧ (Board.new.cells.map (fun col => col.countP (fun o => o.isNone))).sum = 60 :=
  ⟨rfl, rfl, rfl, rfl, rfl, by decide, by decide, by decide, by decide, by decide, by decide⟩

/-- C8: from the opening position with Black to move, the grid entry at column 3, row 5 is
the legal move with one capture in direction index 4 of DIRECTIONS (delta (0,-1), the
decreasing-row direction) and 0 in the other seven; placing there yields a Place state for
White whose board holds Black at (3,4) and at (3,5). -/
theorem C8_opening_place_3_5 :
    gridGet initialPlace.moves 3 5 = some (Except.ok lm35)
    ∧ lm35.flips = [0, 0, 0, 0, 1, 0, 0, 0]
    ∧ DIRECTIONS[4]? = some (0, -1)
    ∧ ∃ p : Place, Place.place initialPlace (3, 5) = some (Game.Place p)
        ∧ p.player = Color.White
        ∧ p.retry_reason = none
        ∧ getCell p.board.cells 3 4 = some Color.Black
        ∧ getCell p.board.cells 3 5 = some Color.Black := by
  refine ⟨by decide, rfl, rfl, ?_⟩
  have h : Place.place initialPlace (3, 5) = some (Game.Place
      { player := Color.White, retry_reason := none,
        moves := (lm35.apply Board.new).test Color.White,
        board := lm35.apply Board.new }) := by decide
  exact ⟨_, h, by decide, by decide, by decide, by decide⟩

/-- C9: place performs no bounds check. On a coordinate component outside [0,7] the raw
grid lookup self.moves[x as usize][y as usize] is out of bounds, the source panics, and no
game state is produced; the embedding models that panic as a none result. -/
theorem C9_place_raw_index_panics :
    Place.place initialPlace (8, 0) = none ∧ Place.place initialPlace (0, -1) = none := by
  constructor
  · decide
  · decide

/-- C4 counterexample: on the opening board, Black placing at (3,5) flips one White piece
and adds one Black piece, so the total number of occupied cells goes from 4 to 5, not to
4 + (1 + sum(flips)) = 6 as the claim states. -/
theorem C4_counterexample :
    gridGet initialPlace.moves 3 5 = some (Except.ok lm35)
    ∧ lm35.flips.sum = 1
    ∧ countOccupied Board.new.cells = 4
    ∧ countOccupied (lm35.apply Board.new).cells = 5
    ∧ (countOccupied (lm35.apply Board.new).cells : Int) ≠
        (countOccupied Board.new.cells : Int) + (1 + lm35.flips.sum) := by
  refine ⟨by decide, by decide, by decide, by decide, by decide⟩

/-- A legality entry satisfies is_ok exactly when it carries a LegalMove. -/
lemma is_ok_iff (r : Except IllegalMove LegalMove) :
    is_ok r = true ↔ ∃ lm, r = Except.ok lm := by
  cases r <;> simp [is_ok]

/-- The source's has_valid_move scan finds an entry exactly when the grid contains a
LegalMove somewhere. -/
lemma any_is_ok_iff (moves : List (List (Except IllegalMove LegalMove))) :
    moves.any (fun col => col.any is_ok) = true ↔
      ∃ col ∈ moves, ∃ r ∈ col, ∃ lm, r = Except.ok lm := by
  simp [List.any_eq_true, is_ok_iff]

/-- Existence of a LegalMove in a grid follows from the computable has_valid_move scan. -/
lemma exists_ok_of_any (moves : List (List (Except IllegalMove LegalMove)))
    (h : moves.any (fun col => col.any is_ok) = true) :
    ∃ col ∈ moves, ∃ r ∈ col, ∃ lm, r = Except.ok lm :=
  (any_is_ok_iff moves).mp h

/-- C5: when the selected cell's legality entry is an IllegalMove, place returns a Place
state with the same player, board and legality grid, and with retry_reason set to exactly
that IllegalMove. -/
theorem C5_illegal_place_frame (s : Place) (x y : Int) (im : IllegalMove)
    (h : gridGet s.moves x y = some (Except.error im)) :
    Place.place s (x, y) = some (Game.Place
      { player := s.player, retry_reason := some im, moves := s.moves, board := s.board }) := by
  simp only [Place.place, h]

/-- C5 witness: attempting (3,3) on the opening board fails with Occupied(Black) and only
the retry reason changes. -/
theorem C5_illegal_place_frame_witness :
    Place.place initialPlace (3, 3) = some (Game.Place
      { player := Color.Black, retry_reason := some (IllegalMove.Occupied Color.Black),
        moves := Board.new.test Color.Black, board := Board.new }) :=
  C5_illegal_place_frame initialPlace 3 3 (IllegalMove.Occupied Color.Black) (by decide)

/-- C6: skip leaves the board unchanged and returns a Place state for the opposite player
with no retry reason and the freshly tested grid when that grid contains a LegalMove
anywhere, and End otherwise. -/
theorem C6_skip_characterisation (k : Skip) :
    ((∃ col ∈ k.board.test k.player.flip, ∃ r ∈ col, ∃ lm, r = Except.ok lm) →
      Skip.skip k = Game.Place
        { player := k.player.flip, retry_reason := none,
          moves := k.board.test k.player.flip, board := k.board })
    ∧ (¬ (∃ col ∈ k.board.test k.player.flip, ∃ r ∈ col, ∃ lm, r = Except.ok lm) →
      Skip.skip k = Game.End) := by
  constructor
  · intro h
    have hb : (k.board.test k.player.flip).any (fun col => col.any is_ok) = true :=
      (any_is_ok_iff _).mpr h
    simp [Skip.skip, hb]
  · intro h
    have hb : ¬ ((k.board.test k.player.flip).any (fun col => col.any is_ok) = true) :=
      fun hc => h ((any_is_ok_iff _).mp hc)
    simp [Skip.skip, hb]

/-- C6 witness: a White skip on the opening board hands the turn to Black with Black's
grid and the board untouched. -/
theorem C6_skip_characterisation_witness :
    Skip.skip { player := Color.White, board := Board.new } = Game.Place
      { player := Color.Black, retry_reason := none,
        moves := Board.new.test Color.Black, board := Board.new } :=
  (C6_skip_characterisation { player := Color.White, board := Board.new }).1
    (exists_ok_of_any _ (by decide))

/-- The per-direction walk never produces a negative count when started from a
nonnegative accumulator. -/
lemma test_direction_nonneg (cells : Cells) (color : Color) :
    ∀ (fuel : Nat) (pos dir : Coord) (n : Int), 0 ≤ n →
      0 ≤ test_direction cells color pos dir n fuel := by
  intro fuel
  induction fuel with
  | zero => intro pos dir n _; simp [test_direction]
  | succ fuel ih =>
    intro pos dir n hn
    rw [test_direction]
    split
    · exact le_refl 0
    · cases hg : getCell cells (pos.1 + dir.1) (pos.2 + dir.2) with
      | none => simp
      | some found =>
        simp only
        split
        · exact hn
        · exact ih _ _ _ (by omega)

/-- C2: classification of testCell. On an occupied cell it returns Occupied with the
occupant's color; on an empty cell it returns Ineffective exactly when the 8 per-direction
counts sum to 0; otherwise it returns a LegalMove whose 8 counts are each nonnegative, sum
to at least 1, and therefore include a positive one. -/
theorem C2_test_position_classification (cells : Cells) (color : Color) (x y : Int)
    (hx0 : 0 ≤ x) (hx7 : x ≤ 7) (hy0 : 0 ≤ y) (hy7 : y ≤ 7) :
    (∀ c, test_position cells color (x, y) = Except.error (IllegalMove.Occupied c) ↔
        getCell cells x y = some c)
    ∧ (test_position cells color (x, y) = Except.error IllegalMove.Ineffective ↔
        (getCell cells x y = none ∧
          (DIRECTIONS.map (fun d => test_direction cells color (x, y) d 0 8)).sum = 0))
    ∧ (∀ lm, test_position cells color (x, y) = Except.ok lm →
        lm.flips.length = 8 ∧ (∀ f ∈ lm.flips, 0 ≤ f) ∧ 1 ≤ lm.flips.sum ∧
          ∃ f ∈ lm.flips, 0 < f) := by
  have hnn : ∀ f ∈ DIRECTIONS.map (fun d => test_direction cells color (x, y) d 0 8), 0 ≤ f := by
    intro f hf
    simp only [List.mem_map] at hf
    obtain ⟨d, _, rfl⟩ := hf
    exact test_direction_nonneg cells color 8 (x, y) d 0 (le_refl 0)
  rcases hc : getCell cells x y with _ | c0
  · by_cases hs : (DIRECTIONS.map (fun d => test_direction cells color (x, y) d 0 8)).sum = 0
    · have ht : test_position cells color (x, y) = Except.error IllegalMove.Ineffective := by
        simp [test_position, hc, hs]
      refine ⟨?_, ?_, ?_⟩
      · intro c; rw [ht]; simp [hc]
      · rw [ht]; simp [hc, hs]
      · intro lm hlm; rw [ht] at hlm; exact absurd hlm (by simp)
    · have ht : test_position cells color (x, y) = Except.ok
          { color := color,
            flips := DIRECTIONS.map (fun d => test_direction cells color (x, y) d 0 8),
            position := (x, y) } := by
        simp [test_position, hc, hs]
      refine ⟨?_, ?_, ?_⟩
      · intro c; rw [ht]; simp [hc]
      · rw [ht]; simp [hc, hs]
      · intro lm hlm
        rw [ht] at hlm
        injection hlm with hlm
        subst hlm
        have hsum0 : 0 ≤ (DIRECTIONS.map (fun d => test_direction cells color (x, y) d 0 8)).sum :=
          List.sum_nonneg hnn
        refine ⟨by simp [DIRECTIONS], hnn, ?_, ?_⟩
        · show 1 ≤ (DIRECTIONS.map (fun d => test_direction cells color (x, y) d 0 8)).sum
          omega
        by_contra hno
        push_neg at hno
        have hall : ∀ f ∈ DIRECTIONS.map (fun d => test_direction cells color (x, y) d 0 8),
            f = 0 := fun f hf => le_antisymm (hno f hf) (hnn f hf)
        exact hs (List.sum_eq_zero hall)
  · have ht : test_position cells color (x, y) = Except.error (IllegalMove.Occupied c0) := by
      simp [test_position, hc]
    refine ⟨?_, ?_, ?_⟩
    · intro c; rw [ht]; simp [hc]
    · rw [ht]; simp [hc]
    · intro lm hlm; rw [ht] at hlm; exact absurd hlm (by simp)

/-- C2 witness: the classification applied at the opening board, Black, cell (3,5). -/
theorem C2_test_position_classification_witness :
    (∀ c, test_position Board.new.cells Color.Black (3, 5) =
        Except.error (IllegalMove.Occupied c) ↔ getCell Board.new.cells 3 5 = some c)
    ∧ (test_position Board.new.cells Color.Black (3, 5) = Except.error IllegalMove.Ineffective ↔
        (getCell Board.new.cells 3 5 = none ∧
          (DIRECTIONS.map (fun d => test_direction Board.new.cells Color.Black (3, 5) d 0 8)).sum
            = 0))
    ∧ (∀ lm, test_position Board.new.cells Color.Black (3, 5) = Except.ok lm →
        lm.flips.length = 8 ∧ (∀ f ∈ lm.flips, 0 ≤ f) ∧ 1 ≤ lm.flips.sum ∧
          ∃ f ∈ lm.flips, 0 < f) :=
  C2_test_position_classification Board.new.cells Color.Black 3 5
    (by decide) (by decide) (by decide) (by decide)

/-- Flipping never yields the same color. -/
lemma Color.flip_ne (c : Color) : c.flip ≠ c := by
  cases c <;> simp [Color.flip]

/-- With two colors, any color other than c is c's opposite. -/
lemma Color.eq_flip_of_ne {a c : Color} (h : a ≠ c) : a = c.flip := by
  cases a <;> cases c <;> simp_all [Color.flip]

/-- The spec's on-board condition for a coordinate pair. -/
def inBoard (x y : Int) : Prop := 0 ≤ x ∧ x < 8 ∧ 0 ≤ y ∧ y < 8

instance (x y : Int) : Decidable (inBoard x y) :=
  inferInstanceAs (Decidable (0 ≤ x ∧ x < 8 ∧ 0 ≤ y ∧ y < 8))

/-- Formalised from the spec (4.2): the number of consecutive cells occupied by the
opponent of color, walking outward one step at a time from position along direction. The
Nat argument cuts the walk off; 8 is enough on the 8x8 board. -/
def specOpponentRun (cells : Cells) (color : Color) : Coord → Coord → Nat → Nat
  | _, _, 0 => 0
  | pos, dir, fuel + 1 =>
    if inBoard (pos.1 + dir.1) (pos.2 + dir.2) ∧
        getCell cells (pos.1 + dir.1) (pos.2 + dir.2) = some color.flip then
      1 + specOpponentRun cells color (pos.1 + dir.1, pos.2 + dir.2) dir fuel
    else 0

/-- Formalised from the spec (4.2): a direction's capture count is the opponent-run
length when the cell immediately after that run is on the board and holds the mover's
color (the piece closing the sandwich), and 0 otherwise (the walk stepped off the board
or reached an empty cell first). -/
def specCapture (cells : Cells) (color : Color) (position direction : Coord) (fuel : Nat) :
    Int :=
  let k : Int := (specOpponentRun cells color position direction fuel : Int)
  if inBoard (position.1 + (k + 1) * direction.1) (position.2 + (k + 1) * direction.2) ∧
      getCell cells (position.1 + (k + 1) * direction.1) (position.2 + (k + 1) * direction.2)
        = some color then k
  else 0

/-- The walk from position exits (leaves the board or meets a cell that is not an
opponent piece) within the given number of steps. -/
def exitsWithin (cells : Cells) (color : Color) : Coord → Coord → Nat → Prop
  | _, _, 0 => False
  | pos, dir, fuel + 1 =>
    (pos.1 + dir.1 = 8 ∨ pos.1 + dir.1 = -1 ∨ pos.2 + dir.2 = 8 ∨ pos.2 + dir.2 = -1)
    ∨ ¬ (getCell cells (pos.1 + dir.1) (pos.2 + dir.2) = some color.flip)
    ∨ exitsWithin cells color (pos.1 + dir.1, pos.2 + dir.2) dir fuel

/-- If some step of the ray leaves the board within the fuel bound, the walk exits within
the fuel bound. -/
lemma exitsWithin_of_offboard (cells : Cells) (color : Color) (dir : Coord) :
    ∀ (fuel : Nat) (pos : Coord) (i : Nat), 1 ≤ i → i ≤ fuel →
      (pos.1 + i * dir.1 = 8 ∨ pos.1 + i * dir.1 = -1 ∨
        pos.2 + i * dir.2 = 8 ∨ pos.2 + i * dir.2 = -1) →
      exitsWithin cells color pos dir fuel := by
  intro fuel
  induction fuel with
  | zero => intro pos i h1 h0 _; omega
  | succ fuel ih =>
    intro pos i h1 hle hoff
    rw [exitsWithin]
    by_cases hi : i = 1
    · subst hi
      exact Or.inl (by simpa using hoff)
    · have hco1 : (pos.1 + dir.1) + ((i - 1 : Nat) : Int) * dir.1 = pos.1 + (i : Int) * dir.1 := by
        have h : ((i - 1 : Nat) : Int) = (i : Int) - 1 := by omega
        rw [h]; ring
      have hco2 : (pos.2 + dir.2) + ((i - 1 : Nat) : Int) * dir.2 = pos.2 + (i : Int) * dir.2 := by
        have h : ((i - 1 : Nat) : Int) = (i : Int) - 1 := by omega
        rw [h]; ring
      refine Or.inr (Or.inr (ih (pos.1 + dir.1, pos.2 + dir.2) (i - 1) (by omega) (by omega) ?_))
      dsimp only
      rw [hco1, hco2]
      exact hoff

/-- Every direction of DIRECTIONS drives some coordinate off the board within 8 steps
from any in-range start. -/
lemma exits_exit_index (dir : Coord)
    (hd : dir.1 = 1 ∨ dir.1 = -1 ∨ dir.2 = 1 ∨ dir.2 = -1)
    (x y : Int) (hx0 : 0 ≤ x) (hx7 : x ≤ 7) (hy0 : 0 ≤ y) (hy7 : y ≤ 7) :
    ∃ i : Nat, 1 ≤ i ∧ i ≤ 8 ∧
      (x + i * dir.1 = 8 ∨ x + i * dir.1 = -1 ∨ y + i * dir.2 = 8 ∨ y + i * dir.2 = -1) := by
  rcases hd with h | h | h | h
  · refine ⟨(8 - x).toNat, by omega, by omega, Or.inl ?_⟩
    rw [h, mul_one]; omega
  · refine ⟨(x + 1).toNat, by omega, by omega, Or.inr (Or.inl ?_)⟩
    rw [h, mul_neg_one]; omega
  · refine ⟨(8 - y).toNat, by omega, by omega, Or.inr (Or.inr (Or.inl ?_))⟩
    rw [h, mul_one]; omega
  · refine ⟨(y + 1).toNat, by omega, by omega, Or.inr (Or.inr (Or.inr ?_))⟩
    rw [h, mul_neg_one]; omega

/-- Bridging induction: on every in-range start whose walk exits within the fuel bound,
the source's accumulator recursion computes the accumulator plus the spec's opponent-run
length when the run is closed by the mover's color, and 0 otherwise. -/
lemma test_direction_eq_spec (cells : Cells) (color : Color) (dir : Coord)
    (hd1 : -1 ≤ dir.1) (hd1' : dir.1 ≤ 1) (hd2 : -1 ≤ dir.2) (hd2' : dir.2 ≤ 1) :
    ∀ (fuel : Nat) (pos : Coord) (n : Int),
      0 ≤ pos.1 → pos.1 ≤ 7 → 0 ≤ pos.2 → pos.2 ≤ 7 →
      exitsWithin cells color pos dir fuel →
      test_direction cells color pos dir n fuel =
        (if inBoard (pos.1 + ((specOpponentRun cells color pos dir fuel : Int) + 1) * dir.1)
              (pos.2 + ((specOpponentRun cells color pos dir fuel : Int) + 1) * dir.2) ∧
            getCell cells
              (pos.1 + ((specOpponentRun cells color pos dir fuel : Int) + 1) * dir.1)
              (pos.2 + ((specOpponentRun cells color pos dir fuel : Int) + 1) * dir.2)
              = some color
          then n + (specOpponentRun cells color pos dir fuel : Int) else 0) := by
  intro fuel
  induction fuel with
  | zero => intro pos n _ _ _ _ hex; exact hex.elim
  | succ fuel ih =>
    intro pos n hx0 hx7 hy0 hy7 hex
    by_cases hoffd :
        (pos.1 + dir.1 = 8 ∨ pos.1 + dir.1 = -1 ∨ pos.2 + dir.2 = 8 ∨ pos.2 + dir.2 = -1)
    · have htd : test_direction cells color pos dir n (fuel + 1) = 0 := by
        rw [test_direction]
        exact if_pos hoffd
      have hnb : ¬ inBoard (pos.1 + dir.1) (pos.2 + dir.2) := by
        unfold inBoard; omega
      have hrun : specOpponentRun cells color pos dir (fuel + 1) = 0 := by
        rw [specOpponentRun]
        exact if_neg (fun hc => hnb hc.1)
      rw [htd, hrun]
      simp only [Nat.cast_zero, zero_add, one_mul]
      rw [if_neg (fun hc => hnb hc.1)]
    · have hin : inBoard (pos.1 + dir.1) (pos.2 + dir.2) := by
        unfold inBoard; omega
      rw [test_direction]
      rw [if_neg hoffd]
      cases hcell : getCell cells (pos.1 + dir.1) (pos.2 + dir.2) with
      | none =>
        have hrun : specOpponentRun cells color pos dir (fuel + 1) = 0 := by
          rw [specOpponentRun]
          refine if_neg (fun hc => ?_)
          rw [hcell] at hc
          exact Option.noConfusion hc.2
        rw [hrun]
        simp only [Nat.cast_zero, zero_add, one_mul]
        refine (if_neg (fun hc => ?_)).symm
        rw [hcell] at hc
        exact Option.noConfusion hc.2
      | some found =>
        dsimp only
        by_cases hfc : found = color
        · rw [if_pos hfc]
          have hrun : specOpponentRun cells color pos dir (fuel + 1) = 0 := by
            rw [specOpponentRun]
            refine if_neg (fun hc => ?_)
            rw [hcell] at hc
            injection hc.2 with hcc
            rw [hfc] at hcc
            exact Color.flip_ne color hcc.symm
          rw [hrun]
          simp only [Nat.cast_zero, zero_add, one_mul]
          rw [if_pos ⟨hin, by rw [hcell, hfc]⟩]
          omega
        · have hop : found = color.flip := Color.eq_flip_of_ne hfc
          rw [if_neg hfc]
          have hexn : exitsWithin cells color (pos.1 + dir.1, pos.2 + dir.2) dir fuel := by
            rw [exitsWithin] at hex
            rcases hex with h | h | h
            · exact absurd h hoffd
            · exact absurd (by rw [hcell, hop]) h
            · exact h
          have hrun : specOpponentRun cells color pos dir (fuel + 1) =
              1 + specOpponentRun cells color (pos.1 + dir.1, pos.2 + dir.2) dir fuel := by
            rw [specOpponentRun]
            exact if_pos ⟨hin, by rw [hcell, hop]⟩
          have ihh := ih (pos.1 + dir.1, pos.2 + dir.2) (n + 1)
            (by omega) (by unfold inBoard at hin; omega)
            (by unfold inBoard at hin; omega) (by unfold inBoard at hin; omega) hexn
          rw [hrun]
          dsimp only at ihh
          rw [ihh]
          have hc1 : (pos.1 + dir.1) +
              ((specOpponentRun cells color (pos.1 + dir.1, pos.2 + dir.2) dir fuel : Int) + 1)
                * dir.1
              = pos.1 +
                (((1 + specOpponentRun cells color (pos.1 + dir.1, pos.2 + dir.2) dir fuel
                  : Nat) : Int) + 1) * dir.1 := by
            push_cast; ring
          have hc2 : (pos.2 + dir.2) +
              ((specOpponentRun cells color (pos.1 + dir.1, pos.2 + dir.2) dir fuel : Int) + 1)
                * dir.2
              = pos.2 +
                (((1 + specOpponentRun cells color (pos.1 + dir.1, pos.2 + dir.2) dir fuel
                  : Nat) : Int) + 1) * dir.2 := by
            push_cast; ring
          rw [hc1, hc2]
          have hc3 : n + 1 +
              (specOpponentRun cells color (pos.1 + dir.1, pos.2 + dir.2) dir fuel : Int)
              = n + ((1 + specOpponentRun cells color (pos.1 + dir.1, pos.2 + dir.2) dir fuel
                : Nat) : Int) := by
            push_cast; ring
          rw [hc3]

/-- C3: for every board, color, in-range empty target cell and direction of DIRECTIONS,
the source's per-direction walk returns the spec's capture count: the number of
consecutive opponent cells starting one step away, provided the cell immediately after
that run is on the board and holds the mover's color, and 0 otherwise (off the board,
empty cell first, or the adjacent cell already the mover's color). -/
theorem C3_test_direction_matches_spec (cells : Cells) (color : Color) (x y : Int)
    (dir : Coord) (hdir : dir ∈ DIRECTIONS)
    (hx0 : 0 ≤ x) (hx7 : x ≤ 7) (hy0 : 0 ≤ y) (hy7 : y ≤ 7)
    (hempty : getCell cells x y = none) :
    test_direction cells color (x, y) dir 0 8 = specCapture cells color (x, y) dir 8 := by
  have hcomp : (-1 ≤ dir.1 ∧ dir.1 ≤ 1 ∧ -1 ≤ dir.2 ∧ dir.2 ≤ 1) ∧
      (dir.1 = 1 ∨ dir.1 = -1 ∨ dir.2 = 1 ∨ dir.2 = -1) := by
    simp only [DIRECTIONS, List.mem_cons, List.not_mem_nil, or_false] at hdir
    rcases hdir with rfl | rfl | rfl | rfl | rfl | rfl | rfl | rfl <;> exact (by decide)
  obtain ⟨⟨hd1, hd1', hd2, hd2'⟩, hnz⟩ := hcomp
  obtain ⟨i, hi1, hi8, hoff⟩ := exits_exit_index dir hnz x y hx0 hx7 hy0 hy7
  have hex : exitsWithin cells color (x, y) dir 8 :=
    exitsWithin_of_offboard cells color dir 8 (x, y) i hi1 hi8 hoff
  have hb := test_direction_eq_spec cells color dir hd1 hd1' hd2 hd2' 8 (x, y) 0
    hx0 hx7 hy0 hy7 hex
  rw [hb]
  simp only [specCapture]
  split <;> omega

/-- C3 witness: the walk toward decreasing row from (3,5) for Black on the opening board,
matched against the spec capture count. -/
theorem C3_test_direction_matches_spec_witness :
    test_direction Board.new.cells Color.Black (3, 5) (0, -1) 0 8 =
      specCapture Board.new.cells Color.Black (3, 5) (0, -1) 8 :=
  C3_test_direction_matches_spec Board.new.cells Color.Black 3 5 (0, -1)
    (by decide) (by decide) (by decide) (by decide) (by decide) (by decide)

/-- Replacing a list element trades its countP contribution for the new element's. -/
lemma countP_set_add {α : Type} (p : α → Bool) :
    ∀ (l : List α) (i : Nat) (v : α) (h : i < l.length),
      (l.set i v).countP p + (if p l[i] then 1 else 0) =
        l.countP p + (if p v then 1 else 0) := by
  intro l
  induction l with
  | nil => intro i v h; simp at h
  | cons a t ih =>
    intro i v h
    cases i with
    | zero =>
      simp only [List.set_cons_zero, List.getElem_cons_zero, List.countP_cons]
      omega
    | succ i =>
      simp only [List.set_cons_succ, List.getElem_cons_succ, List.countP_cons]
      have hh := ih i v (by simpa using h)
      omega

/-- Replacing a list element trades its f-contribution to the mapped sum for the new
element's. -/
lemma sum_map_set_add {α : Type} (f : α → Nat) :
    ∀ (l : List α) (i : Nat) (v : α) (h : i < l.length),
      ((l.set i v).map f).sum + f l[i] = (l.map f).sum + f v := by
  intro l
  induction l with
  | nil => intro i v h; simp at h
  | cons a t ih =>
    intro i v h
    cases i with
    | zero =>
      simp only [List.set_cons_zero, List.getElem_cons_zero, List.map_cons, List.sum_cons]
      omega
    | succ i =>
      simp only [List.set_cons_succ, List.getElem_cons_succ, List.map_cons, List.sum_cons]
      have hh := ih i v (by simpa using h)
      omega

/-- getCell depends on coordinates only through their usize casts. -/
lemma getCell_congr (cells : Cells) {x y tx ty : Int}
    (h1 : as_usize x = as_usize tx) (h2 : as_usize y = as_usize ty) :
    getCell cells x y = getCell cells tx ty := by
  unfold getCell
  rw [h1, h2]

/-- flipCell preserves occupancy. -/
lemma flipCell_isSome (o : Option Color) : (flipCell o).isSome = o.isSome := by
  cases o <;> rfl

/-- Writing a value of the same occupancy as the current cell keeps the occupied count. -/
lemma countOccupied_setCell_of_isSome_eq (cells : Cells) (x y : Int) (v : Option Color)
    (h : v.isSome = (getCell cells x y).isSome) :
    countOccupied (setCell cells x y v) = countOccupied cells := by
  unfold countOccupied setCell
  by_cases hi : as_usize x < cells.length
  · rw [List.getElem?_eq_getElem hi]
    simp only [Option.getD_some]
    by_cases hj : as_usize y < cells[as_usize x].length
    · have hget : getCell cells x y = cells[as_usize x][as_usize y] := by
        unfold getCell
        rw [List.getElem?_eq_getElem hi]
        simp only [Option.some_bind]
        rw [List.getElem?_eq_getElem hj]
        simp only [Option.getD_some]
      rw [hget] at h
      have houter := sum_map_set_add (fun col => col.countP (fun o => o.isSome)) cells
        (as_usize x) (cells[as_usize x].set (as_usize y) v) hi
      have hinner := countP_set_add (fun o => o.isSome) cells[as_usize x] (as_usize y) v hj
      simp only at houter hinner
      rw [← h] at hinner
      omega
    · have hset : cells[as_usize x].set (as_usize y) v = cells[as_usize x] :=
        List.set_eq_of_length_le (by omega)
      rw [hset]
      have houter := sum_map_set_add (fun col => col.countP (fun o => o.isSome)) cells
        (as_usize x) cells[as_usize x] hi
      omega
  · have hset : cells.set (as_usize x) (((cells[as_usize x]?).getD []).set (as_usize y) v)
        = cells := List.set_eq_of_length_le (by omega)
    rw [hset]

/-- Writing a piece into an in-range empty cell raises the occupied count by one. -/
lemma countOccupied_setCell_some_of_none (cells : Cells) (x y : Int) (c : Color)
    (hi : as_usize x < cells.length)
    (hj : as_usize y < (((cells[as_usize x]?).getD [])).length)
    (hn : getCell cells x y = none) :
    countOccupied (setCell cells x y (some c)) = countOccupied cells + 1 := by
  unfold countOccupied setCell
  rw [List.getElem?_eq_getElem hi] at hj ⊢
  simp only [Option.getD_some] at hj ⊢
  have hget : getCell cells x y = cells[as_usize x][as_usize y] := by
    unfold getCell
    rw [List.getElem?_eq_getElem hi]
    simp only [Option.some_bind]
    rw [List.getElem?_eq_getElem hj]
    simp only [Option.getD_some]
  rw [hget] at hn
  have houter := sum_map_set_add (fun col => col.countP (fun o => o.isSome)) cells
    (as_usize x) (cells[as_usize x].set (as_usize y) (some c)) hi
  have hinner := countP_set_add (fun o => o.isSome) cells[as_usize x] (as_usize y) (some c) hj
  simp only at houter hinner
  rw [hn] at hinner
  simp only [Option.isSome_none, Option.isSome_some, Bool.false_eq_true, if_false, if_true] at hinner
  omega

/-- Writing any value at one cell leaves every other cell's content unchanged. -/
lemma getCell_setCell_ne (cells : Cells) (x y tx ty : Int) (v : Option Color)
    (hne : as_usize x ≠ as_usize tx ∨ as_usize y ≠ as_usize ty) :
    getCell (setCell cells x y v) tx ty = getCell cells tx ty := by
  by_cases hxi : as_usize x = as_usize tx
  · have hyi : as_usize y ≠ as_usize ty := by tauto
    unfold getCell setCell
    rw [← hxi]
    by_cases hi : as_usize x < cells.length
    · rw [List.getElem?_set_self hi]
      rw [List.getElem?_eq_getElem hi]
      simp only [Option.some_bind, Option.getD_some]
      rw [List.getElem?_set_ne hyi]
    · have hset : cells.set (as_usize x) (((cells[as_usize x]?).getD []).set (as_usize y) v)
          = cells := List.set_eq_of_length_le (by omega)
      rw [hset]
  · unfold getCell setCell
    rw [List.getElem?_set_ne hxi]

/-- Writing the written cell's own value transform at (x, y) yields that value at (x, y)
when in range, and changes nothing when out of range. -/
lemma getCell_setCell_flip_none (cells : Cells) (x y tx ty : Int)
    (h : getCell cells tx ty = none) :
    getCell (setCell cells x y (flipCell (getCell cells x y))) tx ty = none := by
  by_cases hxy : as_usize x = as_usize tx ∧ as_usize y = as_usize ty
  · obtain ⟨hxi, hyi⟩ := hxy
    have hsame : getCell cells x y = none := (getCell_congr cells hxi hyi).trans h
    rw [hsame]
    unfold getCell setCell
    rw [← hxi, ← hyi]
    by_cases hi : as_usize x < cells.length
    · rw [List.getElem?_set_self hi]
      simp only [Option.some_bind]
      rw [List.getElem?_eq_getElem hi]
      simp only [Option.getD_some]
      by_cases hj : as_usize y < cells[as_usize x].length
      · rw [List.getElem?_set_self hj]
        rfl
      · have hset : cells[as_usize x].set (as_usize y) (flipCell none) = cells[as_usize x] :=
          List.set_eq_of_length_le (by omega)
        rw [hset]
        rw [List.getElem?_eq_none (by omega)]
        rfl
    · have hset : cells.set (as_usize x)
          (((cells[as_usize x]?).getD []).set (as_usize y) (flipCell none)) = cells :=
        List.set_eq_of_length_le (by omega)
      rw [hset]
      exact hsame
  · have hne : as_usize x ≠ as_usize tx ∨ as_usize y ≠ as_usize ty := by tauto
    rw [getCell_setCell_ne cells x y tx ty _ hne]
    exact h

/-- Each flip step recolors a cell in place, so the occupied count is unchanged. -/
lemma countOccupied_flip_direction :
    ∀ (n : Nat) (cells : Cells) (pos dir : Coord),
      countOccupied (flip_direction cells pos dir n) = countOccupied cells := by
  intro n
  induction n with
  | zero => intro cells pos dir; rfl
  | succ n ih =>
    intro cells pos dir
    rw [flip_direction]
    rw [ih]
    exact countOccupied_setCell_of_isSome_eq _ _ _ _ (flipCell_isSome _)

/-- The flip walk never fills an empty cell, at any position. -/
lemma getCell_flip_direction_none (tx ty : Int) :
    ∀ (n : Nat) (cells : Cells) (pos dir : Coord), getCell cells tx ty = none →
      getCell (flip_direction cells pos dir n) tx ty = none := by
  intro n
  induction n with
  | zero => intro cells pos dir h; exact h
  | succ n ih =>
    intro cells pos dir h
    rw [flip_direction]
    exact ih _ _ _ (getCell_setCell_flip_none cells _ _ tx ty h)

/-- setCell preserves the number of columns. -/
lemma length_setCell (cells : Cells) (x y : Int) (v : Option Color) :
    (setCell cells x y v).length = cells.length := by
  unfold setCell
  exact List.length_set ..

/-- setCell preserves every column's length. -/
lemma collen_setCell (cells : Cells) (x y : Int) (v : Option Color) (k : Nat) :
    (((setCell cells x y v)[k]?).getD []).length = ((cells[k]?).getD []).length := by
  unfold setCell
  by_cases hk : as_usize x = k
  · subst hk
    by_cases hi : as_usize x < cells.length
    · rw [List.getElem?_set_self hi]
      rw [List.getElem?_eq_getElem hi]
      simp [List.length_set]
    · have hset : cells.set (as_usize x) (((cells[as_usize x]?).getD []).set (as_usize y) v)
          = cells := List.set_eq_of_length_le (by omega)
      rw [hset]
  · rw [List.getElem?_set_ne hk]

/-- The flip walk preserves the number of columns. -/
lemma length_flip_direction :
    ∀ (n : Nat) (cells : Cells) (pos dir : Coord),
      (flip_direction cells pos dir n).length = cells.length := by
  intro n
  induction n with
  | zero => intro cells pos dir; rfl
  | succ n ih =>
    intro cells pos dir
    rw [flip_direction, ih, length_setCell]

/-- The flip walk preserves every column's length. -/
lemma collen_flip_direction (k : Nat) :
    ∀ (n : Nat) (cells : Cells) (pos dir : Coord),
      (((flip_direction cells pos dir n)[k]?).getD []).length = ((cells[k]?).getD []).length := by
  intro n
  induction n with
  | zero => intro cells pos dir; rfl
  | succ n ih =>
    intro cells pos dir
    rw [flip_direction, ih, collen_setCell]

/-- The whole directional fold of apply preserves the occupied count. -/
lemma countOccupied_flip_fold (pos : Coord) :
    ∀ (dl : List (Coord × Int)) (cells : Cells),
      countOccupied (dl.foldl (fun cs dn => flip_direction cs pos dn.1 dn.2.toNat) cells)
        = countOccupied cells := by
  intro dl
  induction dl with
  | nil => intro cells; rfl
  | cons d t ih =>
    intro cells
    rw [List.foldl_cons, ih, countOccupied_flip_direction]

/-- The whole directional fold of apply never fills an empty cell. -/
lemma getCell_flip_fold_none (pos : Coord) (tx ty : Int) :
    ∀ (dl : List (Coord × Int)) (cells : Cells), getCell cells tx ty = none →
      getCell (dl.foldl (fun cs dn => flip_direction cs pos dn.1 dn.2.toNat) cells) tx ty
        = none := by
  intro dl
  induction dl with
  | nil => intro cells h; exact h
  | cons d t ih =>
    intro cells h
    rw [List.foldl_cons]
    exact ih _ (getCell_flip_direction_none tx ty _ _ _ _ h)

/-- The whole directional fold of apply preserves the number of columns. -/
lemma length_flip_fold (pos : Coord) :
    ∀ (dl : List (Coord × Int)) (cells : Cells),
      (dl.foldl (fun cs dn => flip_direction cs pos dn.1 dn.2.toNat) cells).length
        = cells.length := by
  intro dl
  induction dl with
  | nil => intro cells; rfl
  | cons d t ih =>
    intro cells
    rw [List.foldl_cons, ih, length_flip_direction]

/-- The whole directional fold of apply preserves every column's length. -/
lemma collen_flip_fold (pos : Coord) (k : Nat) :
    ∀ (dl : List (Coord × Int)) (cells : Cells),
      (((dl.foldl (fun cs dn => flip_direction cs pos dn.1 dn.2.toNat) cells)[k]?).getD
        []).length = ((cells[k]?).getD []).length := by
  intro dl
  induction dl with
  | nil => intro cells; rfl
  | cons d t ih =>
    intro cells
    rw [List.foldl_cons, ih, collen_flip_direction]

/-- A successful raw lookup in a tester-produced grid decodes to in-range indices and the
test_position result at those indices. -/
lemma gridGet_test_decomp (b : Board) (color : Color) (x y : Int)
    (r : Except IllegalMove LegalMove) (h : gridGet (b.test color) x y = some r) :
    as_usize x < 7 ∧ as_usize y < 7 ∧
      r = test_position b.cells color ((as_usize x : Int), (as_usize y : Int)) := by
  unfold gridGet Board.test at h
  by_cases hx : as_usize x < 7
  · rw [List.getElem?_map, List.getElem?_range hx] at h
    simp only [Option.map_some', Option.some_bind] at h
    by_cases hy : as_usize y < 7
    · rw [List.getElem?_map, List.getElem?_range hy] at h
      simp only [Option.map_some', Option.some_bind, Option.some.injEq] at h
      exact ⟨hx, hy, h.symm⟩
    · rw [List.getElem?_map] at h
      rw [List.getElem?_eq_none (by simp [List.length_range]; omega)] at h
      simp at h
  · rw [List.getElem?_map] at h
    rw [List.getElem?_eq_none (by simp [List.length_range]; omega)] at h
    simp at h

/-- A LegalMove produced by test_position records the tested empty cell, the tested color
and the per-direction counts. -/
lemma test_position_ok (cells : Cells) (color : Color) (p : Coord) (lm : LegalMove)
    (h : test_position cells color p = Except.ok lm) :
    getCell cells p.1 p.2 = none ∧ lm.position = p ∧ lm.color = color ∧
      lm.flips = DIRECTIONS.map (fun d => test_direction cells color p d 0 8) := by
  unfold test_position at h
  cases hc : getCell cells p.1 p.2 with
  | some c =>
    rw [hc] at h
    exact absurd h (by simp)
  | none =>
    rw [hc] at h
    dsimp only at h
    split at h
    · exact absurd h (by simp)
    · injection h with h
      subst h
      exact ⟨rfl, rfl, rfl, rfl⟩

/-- A small natural number is unchanged by the int-roundtrip usize cast. -/
lemma as_usize_natCast (n : Nat) (h : n < 8) : as_usize (n : Int) = n := by
  unfold as_usize
  omega

/-- C4 (amended): placing at a cell whose legality entry, in a grid computed by test from
the state's own board, is a LegalMove raises the total number of occupied cells by exactly
one (the captured cells are recolored in place, not added); and skip returns a state whose
board is identical to the Skip state's board. -/
theorem C4_place_count_and_skip_frame (s : Place) (x y : Int) (lm : LegalMove)
    (hwf1 : s.board.cells.length = 8)
    (hwf2 : ∀ col ∈ s.board.cells, col.length = 8)
    (hgrid : s.moves = s.board.test s.player)
    (hlook : gridGet s.moves x y = some (Except.ok lm)) :
    countOccupied (lm.apply s.board).cells = countOccupied s.board.cells + 1
    ∧ ∀ (k : Skip) (p : Place), Skip.skip k = Game.Place p → p.board = k.board := by
  constructor
  · rw [hgrid] at hlook
    obtain ⟨hx7, hy7, hr⟩ := gridGet_test_decomp s.board s.player x y (Except.ok lm) hlook
    obtain ⟨hcell, hpos, hcol, hflips⟩ := test_position_ok s.board.cells s.player
      ((as_usize x : Int), (as_usize y : Int)) lm hr.symm
    dsimp only at hcell
    unfold LegalMove.apply
    rw [hpos]
    dsimp only
    have hnone : getCell
        ((DIRECTIONS.zip lm.flips).foldl
          (fun cs dn => flip_direction cs ((as_usize x : Int), (as_usize y : Int))
            dn.1 dn.2.toNat) s.board.cells)
        ((as_usize x : Int)) ((as_usize y : Int)) = none :=
      getCell_flip_fold_none _ _ _ _ _ hcell
    have hcount := countOccupied_flip_fold ((as_usize x : Int), (as_usize y : Int))
      (DIRECTIONS.zip lm.flips) s.board.cells
    have hlen : ((DIRECTIONS.zip lm.flips).foldl
        (fun cs dn => flip_direction cs ((as_usize x : Int), (as_usize y : Int))
          dn.1 dn.2.toNat) s.board.cells).length = 8 :=
      (length_flip_fold _ _ _).trans hwf1
    have hax : as_usize ((as_usize x : Nat) : Int) = as_usize x := as_usize_natCast _ (by omega)
    have hay : as_usize ((as_usize y : Nat) : Int) = as_usize y := as_usize_natCast _ (by omega)
    have hcolsrc : ((s.board.cells[as_usize x]?).getD []).length = 8 := by
      have hxlt : as_usize x < s.board.cells.length := by omega
      rw [List.getElem?_eq_getElem hxlt]
      simp only [Option.getD_some]
      exact hwf2 _ (List.getElem_mem hxlt)
    have hcollen : (((((DIRECTIONS.zip lm.flips).foldl
        (fun cs dn => flip_direction cs ((as_usize x : Int), (as_usize y : Int))
          dn.1 dn.2.toNat) s.board.cells))[as_usize ((as_usize x : Nat) : Int)]?).getD
        []).length = 8 := by
      rw [hax]
      rw [collen_flip_fold]
      exact hcolsrc
    have hfinal := countOccupied_setCell_some_of_none
      ((DIRECTIONS.zip lm.flips).foldl
        (fun cs dn => flip_direction cs ((as_usize x : Int), (as_usize y : Int))
          dn.1 dn.2.toNat) s.board.cells)
      ((as_usize x : Int)) ((as_usize y : Int)) lm.color
      (by rw [hax, hlen]; omega) (by rw [hcollen, hay]; omega) hnone
    rw [hfinal, hcount]
  · intro k p h
    simp only [Skip.skip] at h
    split at h
    · injection h with h2
      subst h2
      rfl
    · exact Game.noConfusion h

/-- C4 witness: the amended count law applied to the opening scenario, Black at (3,5). -/
theorem C4_place_count_and_skip_frame_witness :
    countOccupied (lm35.apply Board.new).cells = countOccupied Board.new.cells + 1 :=
  (C4_place_count_and_skip_frame initialPlace 3 5 lm35 (by decide) (by decide) rfl
    (by decide)).1

/-- Reachability of game states through the initializer and the two transitions. -/
inductive Reachable : Game → Prop where
  | init : Reachable new_game
  | place_step (s : Place) (c : Coord) (g : Game) :
      Reachable (Game.Place s) → Place.place s c = some g → Reachable g
  | skip_step (s : Skip) : Reachable (Game.Skip s) → Reachable (Skip.skip s)

/-- Every legality grid carried by a reachable Place state has exactly 7 columns of 7
entries, because every grid in the program is produced by Board::test. -/
lemma reachable_place_grid (g : Game) (h : Reachable g) :
    ∀ p : Place, g = Game.Place p → p.moves.length = 7 ∧ ∀ col ∈ p.moves, col.length = 7 := by
  induction h with
  | init =>
    intro p hp
    simp only [new_game] at hp
    injection hp with hp
    subst hp
    constructor
    · simp [Board.test]
    · intro col hcol
      simp only [Board.test, List.mem_map] at hcol
      obtain ⟨i, _, rfl⟩ := hcol
      simp
  | place_step s c g hr hpl ih =>
    intro p hp
    rcases hg : gridGet s.moves c.1 c.2 with _ | r
    · simp only [Place.place, hg] at hpl
      exact Option.noConfusion hpl
    · cases r with
      | error im =>
        simp only [Place.place, hg] at hpl
        injection hpl with hpl
        subst hpl
        injection hp with hp
        subst hp
        simpa using ih s rfl
      | ok lm =>
        simp only [Place.place, hg] at hpl
        split at hpl
        · injection hpl with hpl
          subst hpl
          injection hp with hp
          subst hp
          constructor
          · simp [Board.test]
          · intro col hcol
            simp only [Board.test, List.mem_map] at hcol
            obtain ⟨i, _, rfl⟩ := hcol
            simp
        · injection hpl with hpl
          subst hpl
          exact Game.noConfusion hp
  | skip_step s hr ih =>
    intro p hp
    simp only [Skip.skip] at hp
    split at hp
    · injection hp with hp
      subst hp
      constructor
      · simp [Board.test]
      · intro col hcol
        simp only [Board.test, List.mem_map] at hcol
        obtain ⟨i, _, rfl⟩ := hcol
        simp
    · exact Game.noConfusion hp

/-- C10: on every reachable Place state, selecting a coordinate the spec declares valid
whose column or row equals 7 makes the raw grid lookup go out of bounds (the source
panics, modelled as none), because every reachable grid is 7x7; no legality verdict or
next game state is produced there. -/
theorem C10_place_coordinate_seven_panics (p : Place) (hr : Reachable (Game.Place p))
    (x y : Int) (hx0 : 0 ≤ x) (hx7 : x ≤ 7) (hy0 : 0 ≤ y) (hy7 : y ≤ 7)
    (h7 : x = 7 ∨ y = 7) :
    Place.place p (x, y) = none := by
  obtain ⟨hlen, hcols⟩ := reachable_place_grid (Game.Place p) hr p rfl
  have hxv : as_usize x = x.toNat := by unfold as_usize; omega
  have hyv : as_usize y = y.toNat := by unfold as_usize; omega
  have hgnone : gridGet p.moves x y = none := by
    unfold gridGet
    rcases h7 with h | h
    · subst h
      rw [hxv]
      rw [List.getElem?_eq_none (by omega)]
      rfl
    · subst h
      by_cases hx : x.toNat < 7
      · rw [hxv]
        rw [List.getElem?_eq_getElem (by omega)]
        simp only [Option.some_bind]
        rw [hyv]
        have hcl : p.moves[x.toNat].length = 7 := hcols _ (List.getElem_mem (by omega))
        rw [List.getElem?_eq_none (by omega)]
      · rw [hxv]
        rw [List.getElem?_eq_none (by omega)]
        rfl
  simp only [Place.place]
  rw [hgnone]

/-- C10 witness: the initial state is reachable and placing at column 7 hits the
out-of-bounds branch. -/
theorem C10_place_coordinate_seven_panics_witness :
    Place.place initialPlace (7, 0) = none :=
  C10_place_coordinate_seven_panics initialPlace Reachable.init 7 0
    (by decide) (by decide) (by decide) (by decide) (Or.inl rfl)
